import Mathlib

/-!
# rel: changeset validation and the postgresql adapter

A shallow embedding of `changeset/changeset.go`, `changeset/put_change.go` and
`adapter/postgresql/postgresql.go`.

Go values are embedded as follows.

* A panic is an `Except.error` carrying a `Fault`.
* A map with string keys is `GoMap V`: `none` is the nil map, `some g` an
  initialised map whose entry for `k` is `g k`.
* A slice is `GoSlice α`: `none` is the nil slice, `some l` a non-nil slice
  (possibly of length zero).
* A value of interface type is an `Option`: `none` is the nil interface.
* Pointer receivers whose fields the code never assigns are passed by value.
-/

set_option autoImplicit false

namespace Go

/-- Runtime faults (Go panics) reachable from the embedded code. -/
inductive Fault
  /-- A method call through a nil interface value or a nil pointer. -/
  | nilDereference
  /-- The statement `m[k] = v` on a nil map. -/
  | nilMapAssignment
  /-- The expression `s[i]` with `i` not below `len(s)`. -/
  | indexOutOfRange
  /-- The panic of `Type.ConvertibleTo` when its argument is the nil `Type`. -/
  | nilTypeArgument
  deriving DecidableEq, Repr

/-- A Go `map[string]V`. -/
def GoMap (V : Type) : Type := Option (String → Option V)

/-- The two-valued read `v, ok := m[k]`; reading a nil map finds nothing. -/
def GoMap.get {V : Type} (m : GoMap V) (k : String) : Option V :=
  match m with
  | none => none
  | some g => g k

/-- The assignment `m[k] = v`; it panics on a nil map. -/
def GoMap.set {V : Type} (m : GoMap V) (k : String) (v : V) : Except Fault (GoMap V) :=
  match m with
  | none => .error .nilMapAssignment
  | some g => .ok (some (fun j => if j = k then some v else g j))

/-- The map literal with no entries, `map[string]V{}`. -/
def GoMap.empty {V : Type} : GoMap V := some (fun _ => none)

/-- A Go slice `[]α`. -/
def GoSlice (α : Type) : Type := Option (List α)

/-- The elements of a slice, in order; a nil slice has none. -/
def GoSlice.toList {α : Type} (s : GoSlice α) : List α :=
  match s with
  | none => []
  | some l => l

/-- The builtin `append(s, x)`: the result is never nil. -/
def GoSlice.append {α : Type} (s : GoSlice α) (x : α) : GoSlice α :=
  some (s.toList ++ [x])

/-- The index expression `s[i]`. -/
def GoSlice.index {α : Type} (s : GoSlice α) (i : Nat) : Except Fault α :=
  match s.toList.get? i with
  | some x => .ok x
  | none => .error .indexOutOfRange

/-- The part of package `reflect` that `PutChange` calls: the non-nil
`reflect.Type` values, the non-nil dynamic values an `interface{}` can hold,
the dynamic type of such a value, and the convertibility table between
non-nil types. -/
structure Reflect where
  /-- The non-nil values of `reflect.Type`. -/
  RType : Type
  /-- The non-nil values of `interface{}`. -/
  Val : Type
  /-- The dynamic type of a non-nil value. -/
  typeOf : Val → RType
  /-- The result of `t.ConvertibleTo(u)` for non-nil `t` and `u`. -/
  convertibleTo : RType → RType → Bool

/-- The call `reflect.TypeOf(v)`: the nil interface has the nil `Type`. -/
def Reflect.TypeOf (R : Reflect) (v : Option R.Val) : Option R.RType :=
  v.map R.typeOf

/-- The method call `t.ConvertibleTo(u)` on `reflect.Type` values that may be
nil: a nil receiver is a nil dereference, a nil argument makes package
`reflect` panic. -/
def Reflect.ConvertibleTo (R : Reflect) (t u : Option R.RType) : Except Fault Bool :=
  match t with
  | none => .error .nilDereference
  | some t1 =>
    match u with
    | none => .error .nilTypeArgument
    | some u1 => .ok (R.convertibleTo t1 u1)

/-- The call `strings.Replace(s, old, new, 1)` on the characters of the
strings: the first occurrence of `old` in `s`, if any, is replaced by `new`. -/
def replaceFirst (old new : List Char) (s : List Char) : List Char :=
  if old.isPrefixOf s then new ++ s.drop old.length
  else
    match s with
    | [] => []
    | c :: cs => c :: replaceFirst old new cs

/-- The call `strings.Replace(s, old, new, 1)`. -/
def stringsReplace1 (s old new : String) : String :=
  ⟨replaceFirst old.data new.data s.data⟩

end Go

namespace changeset

open Go

/-- The non-nil `error` values stored in a changeset. -/
structure FieldError where
  /-- The text of the error. -/
  Message : String
  /-- The field the error is about. -/
  Field : String
  deriving DecidableEq, Repr

/-- The struct `Changeset` of `changeset.go`. -/
structure Changeset (R : Reflect) where
  /-- The field `errors []error`. -/
  errors : GoSlice (Option FieldError)
  /-- The field `changes map[string]interface{}`. -/
  changes : GoMap (Option R.Val)
  /-- The field `data map[string]interface{}`. -/
  data : GoMap (Option R.Val)
  /-- The field `types map[string]reflect.Type`. -/
  types : GoMap (Option R.RType)

/-- The method `Errors`. -/
def Changeset.Errors {R : Reflect} (changeset : Changeset R) : GoSlice (Option FieldError) :=
  changeset.errors

/-- The method `Error`: the guard is `errors != nil`, then `errors[0]`. -/
def Changeset.Error {R : Reflect} (changeset : Changeset R) : Except Fault (Option FieldError) :=
  match changeset.errors with
  | some l => GoSlice.index (some l) 0
  | none => .ok none

/-- The method `Changes`. -/
def Changeset.Changes {R : Reflect} (changeset : Changeset R) : GoMap (Option R.Val) :=
  changeset.changes

/-- The method `Data`. -/
def Changeset.Data {R : Reflect} (changeset : Changeset R) : GoMap (Option R.Val) :=
  changeset.data

/-- The package variable `PutChangeErrorMessage`, at its declared value. -/
def PutChangeErrorMessage : String := "\x7bfield\x7d is invalid"

/-- Modelled from the spec: the struct `Options` is not in the sources; the
spec gives the configuration of `PutChange` as a message template. -/
structure Options where
  /-- The message template, with the placeholder for the field name. -/
  Message : String
  deriving DecidableEq, Repr

/-- Modelled from the spec: the type `Option` of the package (a function that
adjusts an `Options` value) is not in the sources. -/
abbrev OptionFn : Type := Options → Options

/-- Modelled from the spec: the method `Options.Apply` is not in the sources;
it lets every option adjust the configuration, in call order. -/
def Options.Apply (options : Options) (opts : List OptionFn) : Options :=
  opts.foldl (fun o f => f o) options

/-- Modelled from the spec: the function `AddError` is not in the sources; the
spec has it append one error, built from the message, to the error list. -/
def AddError {R : Reflect} (ch : Changeset R) (field : String) (message : String) :
    Changeset R :=
  { ch with errors := ch.errors.append (some ⟨message, field⟩) }

/-- The condition of the `if` in `PutChange`:
`typ, exist := ch.types[field]; exist && reflect.TypeOf(value).ConvertibleTo(typ)`. -/
def putChangeCond {R : Reflect} (ch : Changeset R) (field : String) (value : Option R.Val) :
    Except Fault Bool :=
  match ch.types.get field with
  | none => .ok false
  | some typ => R.ConvertibleTo (R.TypeOf value) typ

/-- The function `PutChange` of `put_change.go`. -/
def PutChange {R : Reflect} (ch : Changeset R) (field : String) (value : Option R.Val)
    (opts : List OptionFn) : Except Fault (Changeset R) :=
  let options := Options.Apply { Message := PutChangeErrorMessage } opts
  match putChangeCond ch field value with
  | .error e => .error e
  | .ok true =>
    match ch.changes.set field value with
    | .error e => .error e
    | .ok m => .ok { ch with changes := m }
  | .ok false =>
    let msg := stringsReplace1 options.Message "\x7bfield\x7d" field
    .ok (AddError ch field msg)

/-- A call of `PutChange`, without the changeset it acts on. -/
structure Call (R : Reflect) where
  /-- The argument `field`. -/
  field : String
  /-- The argument `value`. -/
  value : Option R.Val
  /-- The variadic argument `opts`. -/
  opts : List OptionFn

/-- A sequence of `PutChange` calls on one changeset, in order; a panic ends
the run. -/
def runPutChanges {R : Reflect} (ch : Changeset R) : List (Call R) → Except Fault (Changeset R)
  | [] => .ok ch
  | c :: cs =>
    match PutChange ch c.field c.value c.opts with
    | .error e => .error e
    | .ok ch1 => runPutChanges ch1 cs

/-- Kinds of Go types used in the examples. -/
inductive Kind
  | int
  | string
  deriving DecidableEq, Repr

/-- Values used in the examples. -/
inductive Sample
  | int (n : Int)
  | str (s : String)
  deriving DecidableEq, Repr

/-- An instance of `Reflect` for the examples: an `int` converts to `int` and
to `string`, a `string` converts to `string` only. -/
def sampleReflect : Reflect where
  RType := Kind
  Val := Sample
  typeOf := fun v => match v with
    | .int _ => Kind.int
    | .str _ => Kind.string
  convertibleTo := fun t u => match t, u with
    | .string, .int => false
    | _, _ => true

/-- A changeset that declares `age` as an `int`, with no changes and no
errors yet. -/
def sampleChangeset : Changeset sampleReflect where
  errors := none
  changes := GoMap.empty
  data := GoMap.empty
  types := some (fun k => if k = "age" then some (some Kind.int) else none)

/-- The two calls of the examples: a string for `age`, then the value 30. -/
def sampleCalls : List (Call sampleReflect) :=
  [{ field := "age", value := some (Sample.str "x"), opts := [] },
   { field := "age", value := some (Sample.int 30), opts := [] }]

/-- The changeset after `sampleCalls` on `sampleChangeset`. -/
def sampleAfterCalls : Changeset sampleReflect :=
  { sampleChangeset with
    errors := some [some { Message := "age is invalid", Field := "age" }]
    changes := some (fun j => if j = "age" then some (some (Sample.int 30)) else none) }

/-- The placeholder of a message template. -/
def placeholder : String := "\x7bfield\x7d"

/-- The substitution that `PutChange` performs, stated on the shape of the
template: `msg` is `template` with the placeholder replaced by `field` at its
first occurrence only, and is `template` itself when the placeholder does not
occur. -/
def FirstSubstituted (template field msg : String) : Prop :=
  (∃ pre post : List Char,
      template.data = pre ++ placeholder.data ++ post ∧
      (∀ k, k < pre.length → placeholder.data.isPrefixOf (template.data.drop k) = false) ∧
      msg.data = pre ++ field.data ++ post) ∨
  ((∀ k, placeholder.data.isPrefixOf (template.data.drop k) = false) ∧ msg = template)

/-- Every occurrence of `old` in a string replaced by `new`, left to right and
without overlap; the first argument counts the characters of a replaced
occurrence that are still to be passed over. -/
def replaceAllFrom (old new : List Char) : Nat → List Char → List Char
  | _, [] => []
  | k + 1, _ :: cs => replaceAllFrom old new k cs
  | 0, c :: cs =>
    if old.isPrefixOf (c :: cs) then new ++ replaceAllFrom old new (old.length - 1) cs
    else c :: replaceAllFrom old new 0 cs

/-- The spec's substitution of a field name into a message template: the
template with the placeholder replaced by the field name, wherever it
occurs. -/
def substituteAll (template field : String) : String :=
  ⟨replaceAllFrom placeholder.data field.data 0 template.data⟩

/-- The placeholder occurs at most once in the template: no occurrence is
followed by another one. -/
def OccursAtMostOnce (template : String) : Prop :=
  ∀ pre post : List Char, template.data = pre ++ placeholder.data ++ post →
    ∀ k, placeholder.data.isPrefixOf (post.drop k) = false

/-- An option for the examples: it sets a message template that holds the
placeholder twice. -/
def sampleTwiceOption : OptionFn :=
  fun o => { o with Message := "\x7bfield\x7d bad \x7bfield\x7d" }

end changeset

namespace postgresql

open Go

/-- The non-nil `error` values the adapter handles. The constructors of
package `errors` are kept uninterpreted. -/
inductive GoError
  /-- The value of `errors.UnexpectedError(message)`. -/
  | unexpected (message : String)
  /-- The value of `errors.DuplicateError(message, field)`. -/
  | duplicate (message field : String)
  /-- An error of the driver, with its SQLSTATE code and its text. -/
  | driver (code message : String)
  deriving DecidableEq, Repr

/-- The SQLSTATE code `unique_violation` of PostgreSQL. -/
def uniqueViolation : String := "23505"

/-- A connection pool, `*sql.DB`, when it is not nil. -/
structure DB where
  /-- The identity of the handle. -/
  id : Nat
  deriving DecidableEq, Repr

/-- An open transaction, `*sql.Tx`, when it is not nil. -/
structure Tx where
  /-- The identity of the handle. -/
  id : Nat
  deriving DecidableEq, Repr

/-- The struct `Adapter`: two pointers, each of which may be nil. -/
structure Adapter where
  /-- The field `db *sql.DB`. -/
  db : Option DB
  /-- The field `tx *sql.Tx`. -/
  tx : Option Tx
  deriving DecidableEq, Repr

/-- The types of the values that pass between the adapter and its
collaborators. -/
structure Types where
  /-- Statement arguments, `interface{}`. -/
  Arg : Type
  /-- The type `grimoire.Condition`. -/
  Cond : Type
  /-- A changes map, `map[string]interface{}`. -/
  Changes : Type
  /-- A caller-supplied destination, `doc interface{}`. -/
  Doc : Type
  /-- A result cursor, `*sql.Rows`, when it is not nil. -/
  Rows : Type

/-- The fields of `grimoire.Query` that the adapter reads. -/
structure Query (T : Types) where
  /-- The field `Collection`. -/
  Collection : String
  /-- The field `Condition`. -/
  Condition : T.Cond

/-- The result of the two reads `res.LastInsertId()` and `res.RowsAffected()`
of a `sql.Result`. -/
structure SqlResult where
  /-- The first result of `LastInsertId`. -/
  lastInsertId : Int
  /-- The first result of `RowsAffected`. -/
  rowsAffected : Int
  deriving DecidableEq, Repr

/-- The calls the adapter makes on package `database/sql` and on the handles
it returns. -/
inductive Call (T : Types)
  | sqlOpen (driverName dsn : String)
  | dbClose (db : DB)
  | dbBeginTx (db : DB)
  | dbQuery (db : DB) (statement : String) (args : List T.Arg)
  | dbExec (db : DB) (statement : String) (args : List T.Arg)
  | txCommit (tx : Tx)
  | txRollback (tx : Tx)
  | txQuery (tx : Tx) (statement : String) (args : List T.Arg)
  | txExec (tx : Tx) (statement : String) (args : List T.Arg)
  | rowsScan (rows : T.Rows)
  | rowsClose (rows : T.Rows)

/-- The history of backend calls. -/
abbrev Log (T : Types) : Type := List (Call T)

/-- Package `database/sql` with the driver and the database behind it, and
the row decoder `sqlutil.Scan`: each answer may depend on the calls made so
far. A pair `(value, err)` of these packages is an `Except`: the value is nil
exactly when the error is not. -/
structure Backend (T : Types) where
  sqlOpen : Log T → String → String → Except GoError DB
  dbClose : Log T → DB → Option GoError
  dbBeginTx : Log T → DB → Except GoError Tx
  dbQuery : Log T → DB → String → List T.Arg → Except GoError T.Rows
  dbExec : Log T → DB → String → List T.Arg → Except GoError SqlResult
  txCommit : Log T → Tx → Option GoError
  txRollback : Log T → Tx → Option GoError
  txQuery : Log T → Tx → String → List T.Arg → Except GoError T.Rows
  txExec : Log T → Tx → String → List T.Arg → Except GoError SqlResult
  /-- The call `sqlutil.Scan(out, rows)` with a caller-supplied destination:
  the count, the error and the destination afterwards. -/
  scanDoc : Log T → T.Doc → T.Rows → (Int × Option GoError) × T.Doc
  /-- The call `sqlutil.Scan(out, rows)` into a `struct { ID int64 }`. -/
  scanID : Log T → Int → T.Rows → (Int × Option GoError) × Int
  /-- The call `sqlutil.Scan(out, rows)` into a `[]struct { ID int64 }`. -/
  scanIDs : Log T → GoSlice Int → T.Rows → (Int × Option GoError) × GoSlice Int

/-- The configuration of a `sqlutil.Builder`. -/
structure BuilderConfig where
  /-- The first argument of `NewBuilder`. -/
  placeholder : String
  /-- The second argument of `NewBuilder`. -/
  ordinal : Bool
  /-- The argument of `Returning`, empty when it was not called. -/
  returning : String
  deriving DecidableEq, Repr

/-- The call `sqlutil.NewBuilder(placeholder, ordinal)`. -/
def NewBuilder (placeholder : String) (ordinal : Bool) : BuilderConfig :=
  { placeholder := placeholder, ordinal := ordinal, returning := "" }

/-- The call `builder.Returning(field)`. -/
def BuilderConfig.Returning (b : BuilderConfig) (field : String) : BuilderConfig :=
  { b with returning := field }

/-- The statement builders of package `sqlutil`, which is not in the sources:
each maps its arguments to a statement text and its arguments. -/
structure Builder (T : Types) where
  Find : BuilderConfig → postgresql.Query T → String × List T.Arg
  Insert : BuilderConfig → String → T.Changes → String × List T.Arg
  InsertAll : BuilderConfig → String → List String → List T.Changes → String × List T.Arg
  Update : BuilderConfig → String → T.Changes → T.Cond → String × List T.Arg
  Delete : BuilderConfig → String → T.Cond → String × List T.Arg

/-- An adapter together with the history of backend calls. -/
structure State (T : Types) where
  adapter : Adapter
  log : Log T

/-- A pair `(pointer, err)` as Go returns it. -/
def pairOf {α : Type} (r : Except GoError α) : Option α × Option GoError :=
  match r with
  | .ok a => (some a, none)
  | .error e => (none, some e)

/-- The function `Open`: the adapter is returned whatever `sql.Open` says. -/
def Open {T : Types} (B : Backend T) (dsn : String) (log : Log T) :
    (Adapter × Option GoError) × Log T :=
  let adapter : Adapter := { db := none, tx := none }
  let r := pairOf (B.sqlOpen log "postgres" dsn)
  (({ adapter with db := r.1 }, r.2), log ++ [Call.sqlOpen "postgres" dsn])

/-- The method `Error`: the branch that recognised a duplicate key is
commented out in the source, so every error is returned as it came. -/
def Adapter.Error (_adapter : Adapter) (err : Option GoError) : Option GoError :=
  match err with
  | none => none
  | some e => some e

/-- The method `Close`. -/
def Adapter.Close {T : Types} (B : Backend T) (st : State T) :
    Except Fault (Option GoError × State T) :=
  match st.adapter.db with
  | none => .error .nilDereference
  | some db => .ok (B.dbClose st.log db, { st with log := st.log ++ [Call.dbClose db] })

/-- The method `Begin`: it calls `BeginTx` on the field `db`, without a look
at the field `tx`, and wraps whatever comes back. -/
def Adapter.Begin {T : Types} (B : Backend T) (st : State T) :
    Except Fault ((Adapter × Option GoError) × State T) :=
  match st.adapter.db with
  | none => .error .nilDereference
  | some db =>
    let r := pairOf (B.dbBeginTx st.log db)
    .ok (({ db := none, tx := r.1 }, r.2), { st with log := st.log ++ [Call.dbBeginTx db] })

/-- The method `Commit`. -/
def Adapter.Commit {T : Types} (B : Backend T) (st : State T) : Option GoError × State T :=
  match st.adapter.tx with
  | none => (some (GoError.unexpected "not in transaction"), st)
  | some tx =>
    let err := B.txCommit st.log tx
    (st.adapter.Error err, { st with log := st.log ++ [Call.txCommit tx] })

/-- The method `Rollback`. -/
def Adapter.Rollback {T : Types} (B : Backend T) (st : State T) : Option GoError × State T :=
  match st.adapter.tx with
  | none => (some (GoError.unexpected "not in transaction"), st)
  | some tx =>
    let err := B.txRollback st.log tx
    (st.adapter.Error err, { st with log := st.log ++ [Call.txRollback tx] })

/-- The first statement of `Query`: the query goes to the transaction when
there is one, to the connection otherwise. -/
def Adapter.queryRows {T : Types} (B : Backend T) (statement : String) (args : List T.Arg)
    (st : State T) : Except Fault (Except GoError T.Rows × State T) :=
  match st.adapter.tx with
  | some tx =>
    .ok (B.txQuery st.log tx statement args,
      { st with log := st.log ++ [Call.txQuery tx statement args] })
  | none =>
    match st.adapter.db with
    | none => .error .nilDereference
    | some db =>
      .ok (B.dbQuery st.log db statement args,
        { st with log := st.log ++ [Call.dbQuery db statement args] })

/-- The method `Query`, for a destination of type `α` with its decoder
`scan`: the count, the error, and the destination afterwards. -/
def Adapter.Query {T : Types} {α : Type} (B : Backend T)
    (scan : Log T → α → T.Rows → (Int × Option GoError) × α)
    (out : α) (statement : String) (args : List T.Arg) (st : State T) :
    Except Fault (((Int × Option GoError) × α) × State T) :=
  match Adapter.queryRows B statement args st with
  | .error f => .error f
  | .ok (.error err, st1) => .ok (((0, st1.adapter.Error (some err)), out), st1)
  | .ok (.ok rows, st1) =>
    let r := scan st1.log out rows
    .ok (((r.1.1, st1.adapter.Error r.1.2), r.2),
      { st1 with log := st1.log ++ [Call.rowsScan rows, Call.rowsClose rows] })

/-- The method `Exec`: last inserted id, affected rows, error. -/
def Adapter.Exec {T : Types} (B : Backend T) (statement : String) (args : List T.Arg)
    (st : State T) : Except Fault ((Int × Int × Option GoError) × State T) :=
  let sent : Except Fault (Except GoError SqlResult × State T) :=
    match st.adapter.tx with
    | some tx =>
      .ok (B.txExec st.log tx statement args,
        { st with log := st.log ++ [Call.txExec tx statement args] })
    | none =>
      match st.adapter.db with
      | none => .error .nilDereference
      | some db =>
        .ok (B.dbExec st.log db statement args,
          { st with log := st.log ++ [Call.dbExec db statement args] })
  match sent with
  | .error f => .error f
  | .ok (.error err, st1) => .ok ((0, 0, st1.adapter.Error (some err)), st1)
  | .ok (.ok res, st1) => .ok ((res.lastInsertId, res.rowsAffected, none), st1)

/-- The method `All`: count, error, and the destination afterwards. -/
def Adapter.All {T : Types} (B : Backend T) (S : Builder T) (query : postgresql.Query T)
    (doc : T.Doc) (st : State T) : Except Fault (((Int × Option GoError) × T.Doc) × State T) :=
  let built := S.Find (NewBuilder "$" true) query
  Adapter.Query B B.scanDoc doc built.1 built.2 st

/-- The method `Insert`: the id read back, and the error. -/
def Adapter.Insert {T : Types} (B : Backend T) (S : Builder T) (query : postgresql.Query T)
    (changes : T.Changes) (st : State T) : Except Fault ((Int × Option GoError) × State T) :=
  let built := S.Insert ((NewBuilder "$" true).Returning "id") query.Collection changes
  match Adapter.Query B B.scanID 0 built.1 built.2 st with
  | .error f => .error f
  | .ok (((_, err), id), st1) => .ok ((id, err), st1)

/-- The method `InsertAll`: the ids read back, and the error. -/
def Adapter.InsertAll {T : Types} (B : Backend T) (S : Builder T) (query : postgresql.Query T)
    (fields : List String) (allchanges : List T.Changes) (st : State T) :
    Except Fault ((List Int × Option GoError) × State T) :=
  let built :=
    S.InsertAll ((NewBuilder "$" true).Returning "id") query.Collection fields allchanges
  match Adapter.Query B B.scanIDs none built.1 built.2 st with
  | .error f => .error f
  | .ok (((_, err), result), st1) => .ok ((result.toList, err), st1)

/-- The method `Update`. -/
def Adapter.Update {T : Types} (B : Backend T) (S : Builder T) (query : postgresql.Query T)
    (changes : T.Changes) (st : State T) : Except Fault (Option GoError × State T) :=
  let built := S.Update (NewBuilder "$" true) query.Collection changes query.Condition
  match Adapter.Exec B built.1 built.2 st with
  | .error f => .error f
  | .ok ((_, _, err), st1) => .ok (err, st1)

/-- The method `Delete`. -/
def Adapter.Delete {T : Types} (B : Backend T) (S : Builder T) (query : postgresql.Query T)
    (st : State T) : Except Fault (Option GoError × State T) :=
  let built := S.Delete (NewBuilder "$" true) query.Collection query.Condition
  match Adapter.Exec B built.1 built.2 st with
  | .error f => .error f
  | .ok ((_, _, err), st1) => .ok (err, st1)

/-- The types of the examples: every value is a string, a cursor is the list
of ids it yields. -/
abbrev sampleTypes : Types where
  Arg := String
  Cond := String
  Changes := List (String × String)
  Doc := List Int
  Rows := List Int

/-- A backend for the examples: it opens every connection, answers every
statement with no rows, fails every `BeginTx` on connection 7, and reports a
uniqueness violation for every `Exec`. -/
def sampleBackend : Backend sampleTypes where
  sqlOpen := fun _ _ _ => .ok ⟨1⟩
  dbClose := fun _ _ => none
  dbBeginTx := fun _ db =>
    if db.id = 7 then .error (GoError.driver "08006" "connection failure") else .ok ⟨db.id + 1⟩
  dbQuery := fun _ _ _ _ => .ok []
  dbExec := fun _ _ _ _ => .error (GoError.driver uniqueViolation "duplicate key value")
  txCommit := fun _ _ => none
  txRollback := fun _ _ => none
  txQuery := fun _ _ _ _ => .ok []
  txExec := fun _ _ _ _ => .error (GoError.driver uniqueViolation "duplicate key value")
  scanDoc := fun _ (out : List Int) (rows : List Int) => ((rows.length, none), out ++ rows)
  scanID := fun _ (out : Int) (rows : List Int) => ((rows.length, none), rows.headD out)
  scanIDs := fun _ (out : GoSlice Int) (rows : List Int) =>
    ((rows.length, none), some (out.toList ++ rows))

end postgresql

/-! ## Lemmas on the embedding of Go values -/

namespace Go

theorem GoMap.get_set_same {V : Type} (g : String → Option V) (k : String) (v : V) :
    ∃ m, GoMap.set (some g) k v = .ok m ∧ GoMap.get m k = some v := by
  refine ⟨_, rfl, ?_⟩
  simp [GoMap.get]

theorem GoMap.get_set_other {V : Type} (g : String → Option V) (k j : String) (v : V)
    (m : GoMap V) (hm : GoMap.set (some g) k v = .ok m) (hj : j ≠ k) :
    GoMap.get m j = GoMap.get (some g) j := by
  simp only [GoMap.set, Except.ok.injEq] at hm
  subst hm
  simp [GoMap.get, hj]

theorem replaceFirst_of_isPrefixOf (old new s : List Char) (h : old.isPrefixOf s = true) :
    replaceFirst old new s = new ++ s.drop old.length := by
  cases s <;> simp [replaceFirst, h]

theorem replaceFirst_cons (old new : List Char) (c : Char) (cs : List Char)
    (h : old.isPrefixOf (c :: cs) = false) :
    replaceFirst old new (c :: cs) = c :: replaceFirst old new cs := by
  simp [replaceFirst, h]

theorem replaceFirst_nil (old new : List Char) (h : old.isPrefixOf [] = false) :
    replaceFirst old new [] = [] := by
  simp [replaceFirst, h]

/-- What `replaceFirst` computes: either `s` splits at the first occurrence of
`old`, which is replaced, or `old` does not occur and `s` is returned. -/
theorem replaceFirst_spec (old new : List Char) (s : List Char) :
    (∃ pre post : List Char, s = pre ++ old ++ post ∧
        (∀ k, k < pre.length → old.isPrefixOf (s.drop k) = false) ∧
        replaceFirst old new s = pre ++ new ++ post) ∨
    ((∀ k, old.isPrefixOf (s.drop k) = false) ∧ replaceFirst old new s = s) := by
  induction s with
  | nil =>
    cases h : old.isPrefixOf ([] : List Char) with
    | true =>
      left
      refine ⟨[], [], ?_, ?_, ?_⟩
      · have := List.isPrefixOf_iff_prefix.mp h
        simpa using this
      · intro k hk; simp at hk
      · rw [replaceFirst_of_isPrefixOf _ _ _ h]; simp
    | false =>
      right
      refine ⟨?_, replaceFirst_nil _ _ h⟩
      intro k; simpa using h
  | cons c cs ih =>
    cases h : old.isPrefixOf (c :: cs) with
    | true =>
      left
      obtain ⟨t, ht⟩ := List.isPrefixOf_iff_prefix.mp h
      refine ⟨[], t, ?_, ?_, ?_⟩
      · simpa using ht.symm
      · intro k hk; simp at hk
      · rw [replaceFirst_of_isPrefixOf _ _ _ h, ← ht]; simp
    | false =>
      rw [replaceFirst_cons _ _ _ _ h]
      rcases ih with ⟨pre, post, hs, hfirst, hrep⟩ | ⟨hnone, hrep⟩
      · left
        refine ⟨c :: pre, post, ?_, ?_, ?_⟩
        · simp [hs]
        · intro k hk
          cases k with
          | zero => simpa using h
          | succ k =>
            have hk1 : k < pre.length := by simpa using hk
            simpa using hfirst k hk1
        · simp [hrep]
      · right
        refine ⟨?_, by rw [hrep]⟩
        intro k
        cases k with
        | zero => simpa using h
        | succ k => simpa using hnone k

end Go

/-! ## The changeset -/

namespace changeset

open Go

theorem putChangeCond_of_convertible {R : Reflect} (ch : Changeset R) (f : String) (v : R.Val)
    (t : R.RType) (htype : ch.types.get f = some (some t)) :
    putChangeCond ch f (some v) = .ok (R.convertibleTo (R.typeOf v) t) := by
  simp [putChangeCond, htype, Reflect.ConvertibleTo, Reflect.TypeOf]

theorem putChangeCond_of_undeclared {R : Reflect} (ch : Changeset R) (f : String)
    (v : Option R.Val) (htype : ch.types.get f = none) :
    putChangeCond ch f v = .ok false := by
  simp [putChangeCond, htype]

theorem PutChange_of_cond_false {R : Reflect} (ch : Changeset R) (f : String)
    (v : Option R.Val) (opts : List OptionFn) (h : putChangeCond ch f v = .ok false) :
    PutChange ch f v opts =
      .ok (AddError ch f (stringsReplace1
        (Options.Apply { Message := PutChangeErrorMessage } opts).Message "\x7bfield\x7d" f)) := by
  simp [PutChange, h]

theorem PutChange_of_cond_true {R : Reflect} (ch : Changeset R) (f : String)
    (v : Option R.Val) (opts : List OptionFn) (h : putChangeCond ch f v = .ok true) :
    PutChange ch f v opts =
      match ch.changes.set f v with
      | .error e => .error e
      | .ok m => .ok { ch with changes := m } := by
  simp [PutChange, h]

theorem PutChange_of_cond_error {R : Reflect} (ch : Changeset R) (f : String)
    (v : Option R.Val) (opts : List OptionFn) (e : Fault) (h : putChangeCond ch f v = .error e) :
    PutChange ch f v opts = .error e := by
  simp [PutChange, h]

theorem putChangeCond_errors_irrelevant {R : Reflect} (ch : Changeset R)
    (errs : GoSlice (Option FieldError)) (f : String) (v : Option R.Val) :
    putChangeCond { ch with errors := errs } f v = putChangeCond ch f v := rfl

theorem stringsReplace1_substituted (template field : String) :
    FirstSubstituted template field (stringsReplace1 template "\x7bfield\x7d" field) := by
  rcases replaceFirst_spec placeholder.data field.data template.data with
    ⟨pre, post, hs, hfirst, hrep⟩ | ⟨hnone, hrep⟩
  · left
    exact ⟨pre, post, hs, hfirst, hrep⟩
  · right
    refine ⟨hnone, ?_⟩
    show (⟨replaceFirst placeholder.data field.data template.data⟩ : String) = template
    rw [hrep]

theorem stringsReplace1_default (field : String) :
    stringsReplace1 PutChangeErrorMessage "\x7bfield\x7d" field = field ++ " is invalid" := by
  apply String.ext
  show replaceFirst "\x7bfield\x7d".data field.data PutChangeErrorMessage.data = _
  rw [replaceFirst_of_isPrefixOf _ _ _ (by decide)]
  simp [PutChangeErrorMessage]

theorem replaceAllFrom_skip (old new : List Char) (s : List Char) :
    ∀ k, replaceAllFrom old new k s = replaceAllFrom old new 0 (s.drop k) := by
  induction s with
  | nil => intro k; cases k <;> simp [replaceAllFrom]
  | cons c cs ih =>
    intro k
    cases k with
    | zero => simp
    | succ k => simpa [replaceAllFrom] using ih k

theorem replaceAllFrom_cons_of_match (old new : List Char) (c : Char) (cs : List Char)
    (h : old.isPrefixOf (c :: cs) = true) :
    replaceAllFrom old new 0 (c :: cs) = new ++ replaceAllFrom old new (old.length - 1) cs := by
  show (if old.isPrefixOf (c :: cs) = true then _ else _) = _
  rw [if_pos h]

theorem replaceAllFrom_cons_of_no_match (old new : List Char) (c : Char) (cs : List Char)
    (h : old.isPrefixOf (c :: cs) = false) :
    replaceAllFrom old new 0 (c :: cs) = c :: replaceAllFrom old new 0 cs := by
  show (if old.isPrefixOf (c :: cs) = true then _ else _) = _
  rw [if_neg (by simp [h])]

theorem replaceAllFrom_absent (old new : List Char) (s : List Char)
    (h : ∀ k, old.isPrefixOf (s.drop k) = false) : replaceAllFrom old new 0 s = s := by
  induction s with
  | nil => simp [replaceAllFrom]
  | cons c cs ih =>
    have h0 : old.isPrefixOf (c :: cs) = false := by simpa using h 0
    have hcs : ∀ k, old.isPrefixOf (cs.drop k) = false := fun k => by simpa using h (k + 1)
    rw [replaceAllFrom_cons_of_no_match _ _ _ _ h0, ih hcs]

theorem replaceAllFrom_first (old new : List Char) (post : List Char) (hold : old ≠ []) :
    ∀ pre : List Char,
      (∀ k, k < pre.length → old.isPrefixOf ((pre ++ old ++ post).drop k) = false) →
      replaceAllFrom old new 0 (pre ++ old ++ post) =
        pre ++ new ++ replaceAllFrom old new 0 post := by
  intro pre
  induction pre with
  | nil =>
    intro _
    cases old with
    | nil => exact absurd rfl hold
    | cons c o =>
      have hp : (c :: o).isPrefixOf (c :: (o ++ post)) = true := by
        rw [List.isPrefixOf_iff_prefix]
        exact ⟨post, by simp⟩
      have hskip := replaceAllFrom_skip (c :: o) new (o ++ post) o.length
      simp only [List.drop_left] at hskip
      show replaceAllFrom (c :: o) new 0 (c :: (o ++ post)) = _
      rw [replaceAllFrom_cons_of_match _ _ _ _ hp]
      simp only [List.length_cons, Nat.add_sub_cancel, hskip, List.nil_append]
  | cons c pre ih =>
    intro hfirst
    have h0 : old.isPrefixOf (c :: (pre ++ old ++ post)) = false := by
      simpa using hfirst 0 (by simp)
    have hrest : ∀ k, k < pre.length →
        old.isPrefixOf ((pre ++ old ++ post).drop k) = false := by
      intro k hk
      simpa using hfirst (k + 1) (by simpa using hk)
    show replaceAllFrom old new 0 (c :: (pre ++ old ++ post)) = _
    rw [replaceAllFrom_cons_of_no_match _ _ _ _ h0, ih hrest]
    simp

/-- Where the placeholder occurs at most once, replacing its first occurrence
is replacing it wherever it occurs. -/
theorem FirstSubstituted.eq_substituteAll (template field msg : String)
    (h : FirstSubstituted template field msg) (honce : OccursAtMostOnce template) :
    msg = substituteAll template field := by
  apply String.ext
  show msg.data = replaceAllFrom placeholder.data field.data 0 template.data
  rcases h with ⟨pre, post, hs, hfirst, hmsg⟩ | ⟨hnone, hmsg⟩
  · have hfirst1 : ∀ k, k < pre.length →
        placeholder.data.isPrefixOf ((pre ++ placeholder.data ++ post).drop k) = false := by
      intro k hk
      rw [← hs]
      exact hfirst k hk
    rw [hmsg, hs, replaceAllFrom_first placeholder.data field.data post (by decide) pre hfirst1,
      replaceAllFrom_absent _ _ post (honce pre post hs)]
  · rw [hmsg, replaceAllFrom_absent _ _ _ hnone]

theorem absent_of_bounded (old s : List Char)
    (h : ∀ k, k ≤ s.length → old.isPrefixOf (s.drop k) = false) :
    ∀ k, old.isPrefixOf (s.drop k) = false := by
  intro k
  by_cases hk : k ≤ s.length
  · exact h k hk
  · have h1 : s.drop k = s.drop s.length := by
      rw [List.drop_eq_nil_of_le (by omega), List.drop_length]
    rw [h1]
    exact h _ (le_refl _)

theorem occursAtMostOnce_default : OccursAtMostOnce PutChangeErrorMessage := by
  intro pre post hs
  have hlen : pre.length + placeholder.data.length + post.length =
      PutChangeErrorMessage.data.length := by
    rw [hs]; simp [Nat.add_assoc]
  have hlen1 : pre.length ≤ 11 := by
    have : placeholder.data.length = 7 := by decide
    have : PutChangeErrorMessage.data.length = 18 := by decide
    omega
  have hocc : placeholder.data.isPrefixOf (PutChangeErrorMessage.data.drop pre.length) = true := by
    rw [hs, List.append_assoc, List.drop_left, List.isPrefixOf_iff_prefix]
    exact ⟨post, rfl⟩
  have hbound : ∀ n, n ≤ 11 →
      placeholder.data.isPrefixOf (PutChangeErrorMessage.data.drop n) = true → n = 0 := by
    decide
  have hpre : pre = [] := List.length_eq_zero.mp (hbound _ hlen1 hocc)
  subst hpre
  have hpost : post = " is invalid".data := by
    have := congrArg (List.drop 7) hs
    simpa [PutChangeErrorMessage, placeholder] using this.symm
  subst hpost
  apply absent_of_bounded
  decide

/-- C1: when the changes map is initialised, the field has a declared type and
the dynamic type of the (non-nil) value is convertible to it, `PutChange`
returns, `Changes()[f]` is the value, every other entry of the changes map is
as before, and `Errors()` is as before. -/
theorem PutChange_stores_convertible {R : Reflect} (ch : Changeset R) (f : String) (v : R.Val)
    (opts : List OptionFn) (g : String → Option (Option R.Val)) (t : R.RType)
    (hmap : ch.changes = some g)
    (htype : ch.types.get f = some (some t))
    (hconv : R.convertibleTo (R.typeOf v) t = true) :
    ∃ ch1, PutChange ch f (some v) opts = .ok ch1 ∧
      ch1.Changes.get f = some (some v) ∧
      (∀ k, k ≠ f → ch1.Changes.get k = ch.Changes.get k) ∧
      ch1.Errors = ch.Errors := by
  have hc : putChangeCond ch f (some v) = .ok true := by
    rw [putChangeCond_of_convertible ch f v t htype, hconv]
  rw [PutChange_of_cond_true ch f (some v) opts hc, hmap]
  obtain ⟨m, hm, hget⟩ := GoMap.get_set_same g f (some v)
  rw [hm]
  refine ⟨_, rfl, hget, ?_, rfl⟩
  intro k hk
  simp only [Changeset.Changes, hmap]
  exact GoMap.get_set_other g f k (some v) m hm hk

/-- An instance of C1: the value 30 for the field `age`, declared an `int`, on
the sample changeset. -/
theorem PutChange_stores_convertible_witness :
    ∃ ch1, PutChange sampleChangeset "age" (some (Sample.int 30)) [] = .ok ch1 ∧
      ch1.Changes.get "age" = some (some (Sample.int 30)) ∧
      (∀ k, k ≠ "age" → ch1.Changes.get k = sampleChangeset.Changes.get k) ∧
      ch1.Errors = sampleChangeset.Errors :=
  PutChange_stores_convertible sampleChangeset "age" (Sample.int 30) [] (fun _ => none)
    Kind.int rfl (by simp [sampleChangeset, GoMap.get]) rfl

/-- C2, as stated, fails: with a message template that holds the placeholder
twice, the error that `PutChange` appends for the field `age` has only the
first placeholder replaced, and so is not the template with the placeholder
replaced by the field name. -/
theorem PutChange_replaces_first_only :
    PutChange sampleChangeset "age" (some (Sample.str "not-a-number")) [sampleTwiceOption] =
      .ok { sampleChangeset with
        errors := some [some { Message := "age bad \x7bfield\x7d", Field := "age" }] } ∧
    substituteAll "\x7bfield\x7d bad \x7bfield\x7d" "age" = "age bad age" ∧
    "age bad \x7bfield\x7d" ≠ substituteAll "\x7bfield\x7d bad \x7bfield\x7d" "age" := by
  have hall : substituteAll "\x7bfield\x7d bad \x7bfield\x7d" "age" = "age bad age" := by
    decide
  refine ⟨?_, hall, ?_⟩
  · have hc : putChangeCond sampleChangeset "age" (some (Sample.str "not-a-number")) =
        .ok false := rfl
    have hmsg : stringsReplace1 "\x7bfield\x7d bad \x7bfield\x7d" "\x7bfield\x7d" "age" =
        "age bad \x7bfield\x7d" := by decide
    rw [PutChange_of_cond_false _ _ _ _ hc]
    simp only [Options.Apply, List.foldl, sampleTwiceOption, hmsg]
    rfl
  · rw [hall]
    decide

/-- C2, amended: when the field has no declared type, or the dynamic type of
the (non-nil) value is not convertible to the declared type, `PutChange`
returns a changeset that differs from the one before only in its error list,
which has exactly one more error, at the end; the message of that error is the
message template with the first occurrence of the placeholder replaced by the
field name, which is the template with the placeholder replaced wherever the
placeholder occurs at most once, and is `<f> is invalid` when no option is
given; the changes map is as before, so an absent `changes[f]` stays absent. -/
theorem PutChange_rejects_invalid {R : Reflect} (ch : Changeset R) (f : String) (v : R.Val)
    (opts : List OptionFn)
    (h : ch.types.get f = none ∨
      ∃ t, ch.types.get f = some (some t) ∧ R.convertibleTo (R.typeOf v) t = false) :
    ∃ msg, PutChange ch f (some v) opts =
        .ok { ch with errors := some (ch.Errors.toList ++ [some ⟨msg, f⟩]) } ∧
      FirstSubstituted (Options.Apply { Message := PutChangeErrorMessage } opts).Message f msg ∧
      (OccursAtMostOnce (Options.Apply { Message := PutChangeErrorMessage } opts).Message →
        msg = substituteAll (Options.Apply { Message := PutChangeErrorMessage } opts).Message f) ∧
      (opts = [] → msg = f ++ " is invalid") ∧
      (∀ ch1, PutChange ch f (some v) opts = .ok ch1 →
        ch1.Changes = ch.Changes ∧ (ch.Changes.get f = none → ch1.Changes.get f = none)) := by
  have hc : putChangeCond ch f (some v) = .ok false := by
    rcases h with h | ⟨t, ht, hconv⟩
    · exact putChangeCond_of_undeclared ch f (some v) h
    · rw [putChangeCond_of_convertible ch f v t ht, hconv]
  rw [PutChange_of_cond_false ch f (some v) opts hc]
  refine ⟨_, rfl, stringsReplace1_substituted _ f,
    FirstSubstituted.eq_substituteAll _ f _ (stringsReplace1_substituted _ f), ?_, ?_⟩
  · intro ho
    subst ho
    exact stringsReplace1_default f
  · intro ch1 h1
    simp only [Except.ok.injEq] at h1
    subst h1
    exact ⟨rfl, fun h0 => h0⟩

/-- An instance of C2 as amended: a string for the field `age`, declared an
`int`, on the sample changeset with no option. -/
theorem PutChange_rejects_invalid_witness :
    ∃ msg, PutChange sampleChangeset "age" (some (Sample.str "not-a-number")) [] =
        .ok { sampleChangeset with
          errors := some (sampleChangeset.Errors.toList ++ [some ⟨msg, "age"⟩]) } ∧
      FirstSubstituted (Options.Apply { Message := PutChangeErrorMessage } []).Message "age" msg ∧
      (OccursAtMostOnce (Options.Apply { Message := PutChangeErrorMessage } []).Message →
        msg = substituteAll (Options.Apply { Message := PutChangeErrorMessage } []).Message
          "age") ∧
      (([] : List OptionFn) = [] → msg = "age" ++ " is invalid") ∧
      (∀ ch1, PutChange sampleChangeset "age" (some (Sample.str "not-a-number")) [] = .ok ch1 →
        ch1.Changes = sampleChangeset.Changes ∧
          (sampleChangeset.Changes.get "age" = none → ch1.Changes.get "age" = none)) :=
  PutChange_rejects_invalid sampleChangeset "age" (Sample.str "not-a-number") []
    (Or.inr ⟨Kind.int, by simp [sampleChangeset, GoMap.get], rfl⟩)

theorem putChangeCond_congr {R : Reflect} (ch ch1 : Changeset R) (f : String)
    (v : Option R.Val) (h : ch1.types = ch.types) :
    putChangeCond ch1 f v = putChangeCond ch f v := by
  simp [putChangeCond, h]

/-- One call: the types stay, and an entry of the changes map afterwards was
there before or is the value of this call, which then passed the check. -/
theorem PutChange_origin {R : Reflect} (ch ch1 : Changeset R) (f : String) (v : Option R.Val)
    (opts : List OptionFn) (h : PutChange ch f v opts = .ok ch1) :
    ch1.types = ch.types ∧
      ∀ k w, ch1.changes.get k = some w →
        ch.changes.get k = some w ∨ (k = f ∧ w = v ∧ putChangeCond ch f v = .ok true) := by
  cases hc : putChangeCond ch f v with
  | error e =>
    rw [PutChange_of_cond_error ch f v opts e hc] at h
    cases h
  | ok b =>
    cases b with
    | false =>
      rw [PutChange_of_cond_false ch f v opts hc] at h
      simp only [Except.ok.injEq] at h
      subst h
      exact ⟨rfl, fun k w hk => Or.inl hk⟩
    | true =>
      rw [PutChange_of_cond_true ch f v opts hc] at h
      cases hm : ch.changes with
      | none =>
        rw [hm] at h
        simp [GoMap.set] at h
      | some g =>
        rw [hm] at h
        simp only [GoMap.set, Except.ok.injEq] at h
        subst h
        refine ⟨rfl, ?_⟩
        intro k w hk
        by_cases hkf : k = f
        · right
          subst hkf
          simp only [GoMap.get, if_true] at hk
          exact ⟨rfl, (Option.some.inj hk).symm, rfl⟩
        · left
          simpa [GoMap.get, hkf] using hk

/-- A run of calls: the types stay, and an entry of the changes map afterwards
was there before or is the value of a call of the run that passed the check. -/
theorem runPutChanges_origin {R : Reflect} (calls : List (Call R)) :
    ∀ ch ch1 : Changeset R, runPutChanges ch calls = .ok ch1 →
      ch1.types = ch.types ∧
        ∀ k w, ch1.changes.get k = some w →
          ch.changes.get k = some w ∨
            ∃ c ∈ calls, c.field = k ∧ c.value = w ∧ putChangeCond ch k w = .ok true := by
  induction calls with
  | nil =>
    intro ch ch1 h
    simp only [runPutChanges, Except.ok.injEq] at h
    subst h
    exact ⟨rfl, fun k w hk => Or.inl hk⟩
  | cons c cs ih =>
    intro ch ch1 h
    simp only [runPutChanges] at h
    cases hp : PutChange ch c.field c.value c.opts with
    | error e => simp [hp] at h
    | ok ch2 =>
      simp only [hp] at h
      obtain ⟨ht2, horigin2⟩ := PutChange_origin ch ch2 c.field c.value c.opts hp
      obtain ⟨ht1, horigin1⟩ := ih ch2 ch1 h
      refine ⟨ht1.trans ht2, ?_⟩
      intro k w hk
      rcases horigin1 k w hk with h2 | ⟨d, hd, hfield, hvalue, hcond⟩
      · rcases horigin2 k w h2 with h0 | ⟨hkf, hwv, hcond⟩
        · exact Or.inl h0
        · right
          refine ⟨c, List.mem_cons_self _ _, hkf.symm, hwv.symm, ?_⟩
          rw [hkf, hwv]
          exact hcond
      · right
        refine ⟨d, List.mem_cons_of_mem _ hd, hfield, hvalue, ?_⟩
        rw [← putChangeCond_congr ch ch2 k w ht2]
        exact hcond

theorem runPutChanges_sampleCalls :
    runPutChanges sampleChangeset sampleCalls = .ok sampleAfterCalls := by
  have h1 : putChangeCond sampleChangeset "age" (some (Sample.str "x")) = .ok false := rfl
  have h2 : putChangeCond (AddError sampleChangeset "age" "age is invalid") "age"
      (some (Sample.int 30)) = .ok true := rfl
  have hmsg : stringsReplace1 PutChangeErrorMessage "\x7bfield\x7d" "age" = "age is invalid" := by
    rw [stringsReplace1_default]; rfl
  simp only [runPutChanges, sampleCalls]
  rw [PutChange_of_cond_false _ _ _ _ h1]
  simp only [Options.Apply, List.foldl, hmsg]
  rw [PutChange_of_cond_true _ _ _ _ h2]
  simp only [AddError, sampleChangeset, GoMap.empty, GoMap.set, sampleAfterCalls,
    GoSlice.append, GoSlice.toList, List.nil_append]

/-- C3, as stated, fails: on a changeset that declares `age` an `int` and has
no changes, the call with a string for `age` fails the check and appends an
error, the next call with the value 30 passes, and `Changes()` then holds
`age`, a field for which a call of the sequence failed validation. -/
theorem PutChange_stores_after_failure :
    putChangeCond sampleChangeset "age" (some (Sample.str "x")) = .ok false ∧
    (∃ ch1, PutChange sampleChangeset "age" (some (Sample.str "x")) [] = .ok ch1 ∧
      ch1.Errors.toList = [some { Message := "age is invalid", Field := "age" }] ∧
      ch1.Changes.get "age" = none ∧
      ∃ ch2, PutChange ch1 "age" (some (Sample.int 30)) [] = .ok ch2 ∧
        runPutChanges sampleChangeset sampleCalls = .ok ch2 ∧
        ch2.Errors.toList = [some { Message := "age is invalid", Field := "age" }] ∧
        ch2.Changes.get "age" = some (some (Sample.int 30))) := by
  have hmsg : stringsReplace1 PutChangeErrorMessage "\x7bfield\x7d" "age" = "age is invalid" := by
    rw [stringsReplace1_default]; rfl
  have h1 : putChangeCond sampleChangeset "age" (some (Sample.str "x")) = .ok false := rfl
  have h2 : putChangeCond (AddError sampleChangeset "age" "age is invalid") "age"
      (some (Sample.int 30)) = .ok true := rfl
  refine ⟨h1, AddError sampleChangeset "age" "age is invalid", ?_, rfl, rfl, sampleAfterCalls,
    ?_, runPutChanges_sampleCalls, rfl, ?_⟩
  · rw [PutChange_of_cond_false _ _ _ _ h1]
    simp only [Options.Apply, List.foldl, hmsg]
  · rw [PutChange_of_cond_true _ _ _ _ h2]
    simp only [AddError, sampleChangeset, GoMap.empty, GoMap.set, sampleAfterCalls,
      GoSlice.append, GoSlice.toList, List.nil_append]
  · simp [sampleAfterCalls, Changeset.Changes, GoMap.get]

/-- One call, entry by entry: an entry of the changes map is as before, or it
is the entry of the field of the call, which passed the check and stored its
value. -/
theorem PutChange_entry {R : Reflect} (c0 c2 : Changeset R) (f : String) (w : Option R.Val)
    (opts : List OptionFn) (h : PutChange c0 f w opts = .ok c2) (k : String) :
    c2.changes.get k = c0.changes.get k ∨
      (k = f ∧ putChangeCond c0 f w = .ok true ∧ c2.changes.get k = some w) := by
  cases hc : putChangeCond c0 f w with
  | error e =>
    rw [PutChange_of_cond_error c0 f w opts e hc] at h
    cases h
  | ok b =>
    cases b with
    | false =>
      rw [PutChange_of_cond_false c0 f w opts hc] at h
      simp only [Except.ok.injEq] at h
      subst h
      exact Or.inl rfl
    | true =>
      rw [PutChange_of_cond_true c0 f w opts hc] at h
      cases hm : c0.changes with
      | none =>
        rw [hm] at h
        simp [GoMap.set] at h
      | some g =>
        rw [hm] at h
        simp only [GoMap.set, Except.ok.injEq] at h
        subst h
        by_cases hkf : k = f
        · right
          subst hkf
          exact ⟨rfl, rfl, by simp [GoMap.get]⟩
        · left
          simp [GoMap.get, hkf]

theorem PutChange_stores {R : Reflect} (c0 c2 : Changeset R) (f : String) (w : Option R.Val)
    (opts : List OptionFn) (h : PutChange c0 f w opts = .ok c2)
    (hc : putChangeCond c0 f w = .ok true) : c2.changes.get f = some w := by
  rw [PutChange_of_cond_true c0 f w opts hc] at h
  cases hm : c0.changes with
  | none =>
    rw [hm] at h
    simp [GoMap.set] at h
  | some g =>
    rw [hm] at h
    simp only [GoMap.set, Except.ok.injEq] at h
    subst h
    simp [GoMap.get]

theorem PutChange_keeps_entry {R : Reflect} (c0 c2 : Changeset R) (f : String)
    (w : Option R.Val) (opts : List OptionFn) (h : PutChange c0 f w opts = .ok c2)
    (k : String) (x : Option R.Val) (hk : c0.changes.get k = some x) :
    ∃ y, c2.changes.get k = some y := by
  rcases PutChange_entry c0 c2 f w opts h k with hsame | ⟨_, _, hset⟩
  · exact ⟨x, hsame.trans hk⟩
  · exact ⟨w, hset⟩

theorem runPutChanges_append {R : Reflect} (pre rest : List (Call R)) :
    ∀ ch ch1 : Changeset R, runPutChanges ch (pre ++ rest) = .ok ch1 →
      ∃ chm, runPutChanges ch pre = .ok chm ∧ runPutChanges chm rest = .ok ch1 := by
  induction pre with
  | nil =>
    intro ch ch1 h
    exact ⟨ch, rfl, h⟩
  | cons c cs ih =>
    intro ch ch1 h
    simp only [List.cons_append, runPutChanges] at h
    cases hp : PutChange ch c.field c.value c.opts with
    | error e => simp [hp] at h
    | ok ch2 =>
      simp only [hp] at h
      obtain ⟨chm, h1, h2⟩ := ih ch2 ch1 h
      refine ⟨chm, ?_, h2⟩
      simp only [runPutChanges, hp]
      exact h1

/-- A run keeps the entry of a field for which no call of the run passes the
check. -/
theorem runPutChanges_keeps {R : Reflect} (f : String) (calls : List (Call R)) :
    ∀ ch ch1 : Changeset R, runPutChanges ch calls = .ok ch1 →
      (∀ d ∈ calls, d.field = f → putChangeCond ch d.field d.value ≠ .ok true) →
      ch1.changes.get f = ch.changes.get f := by
  induction calls with
  | nil =>
    intro ch ch1 h _
    simp only [runPutChanges, Except.ok.injEq] at h
    subst h
    rfl
  | cons c cs ih =>
    intro ch ch1 h hno
    simp only [runPutChanges] at h
    cases hp : PutChange ch c.field c.value c.opts with
    | error e => simp [hp] at h
    | ok ch2 =>
      simp only [hp] at h
      have ht2 := (PutChange_origin ch ch2 c.field c.value c.opts hp).1
      have hrest : ∀ d ∈ cs, d.field = f → putChangeCond ch2 d.field d.value ≠ .ok true := by
        intro d hd hdf
        rw [putChangeCond_congr ch ch2 d.field d.value ht2]
        exact hno d (List.mem_cons_of_mem _ hd) hdf
      rw [ih ch2 ch1 h hrest]
      rcases PutChange_entry ch ch2 c.field c.value c.opts hp f with hsame | ⟨hf, hc, _⟩
      · exact hsame
      · exact absurd hc (hno c (List.mem_cons_self _ _) hf.symm)

/-- A run removes no entry of the changes map. -/
theorem runPutChanges_keeps_entry {R : Reflect} (k : String) (calls : List (Call R)) :
    ∀ (ch ch1 : Changeset R) (x : Option R.Val), runPutChanges ch calls = .ok ch1 →
      ch.changes.get k = some x → ∃ y, ch1.changes.get k = some y := by
  induction calls with
  | nil =>
    intro ch ch1 x h hk
    simp only [runPutChanges, Except.ok.injEq] at h
    subst h
    exact ⟨x, hk⟩
  | cons c cs ih =>
    intro ch ch1 x h hk
    simp only [runPutChanges] at h
    cases hp : PutChange ch c.field c.value c.opts with
    | error e => simp [hp] at h
    | ok ch2 =>
      simp only [hp] at h
      obtain ⟨y, hy⟩ := PutChange_keeps_entry ch ch2 c.field c.value c.opts hp k x hk
      exact ih ch2 ch1 y h hy

/-- In a run, right after a call that passes the check the changes map holds
the value of that call for its field. -/
theorem runPutChanges_split {R : Reflect} (ch ch1 : Changeset R) (pre post : List (Call R))
    (c : Call R) (hrun : runPutChanges ch (pre ++ c :: post) = .ok ch1)
    (hc : putChangeCond ch c.field c.value = .ok true) :
    ∃ chm, chm.types = ch.types ∧ chm.changes.get c.field = some c.value ∧
      runPutChanges chm post = .ok ch1 := by
  obtain ⟨ch2, hpre, hrest⟩ := runPutChanges_append pre (c :: post) ch ch1 hrun
  have ht2 := (runPutChanges_origin pre ch ch2 hpre).1
  simp only [runPutChanges] at hrest
  cases hp : PutChange ch2 c.field c.value c.opts with
  | error e => simp [hp] at hrest
  | ok chm =>
    simp only [hp] at hrest
    have htm := (PutChange_origin ch2 chm c.field c.value c.opts hp).1
    refine ⟨chm, htm.trans ht2, ?_, hrest⟩
    apply PutChange_stores ch2 chm c.field c.value c.opts hp
    rw [putChangeCond_congr ch ch2 c.field c.value ht2]
    exact hc

/-- C3, amended: a call of `PutChange` that fails the check leaves the changes
map as it was, and after a sequence of calls on a changeset that starts with
an empty changes map every entry of `Changes()` is the value of a call of the
sequence, for that field, that passed the check. A field for which a call of
the sequence passed the check is held in `Changes()` at the end, whatever
calls for that field failed before or after, with the value of the last call
for it that passed; and no call removes an entry: every entry is left as it
was or overwritten by a call that passed the check. -/
theorem runPutChanges_stores_only_valid {R : Reflect} (ch ch1 : Changeset R)
    (calls : List (Call R))
    (hempty : ch.changes = GoMap.empty)
    (hrun : runPutChanges ch calls = .ok ch1) :
    (∀ f w, ch1.Changes.get f = some w →
      ∃ c ∈ calls, c.field = f ∧ c.value = w ∧ putChangeCond ch f w = .ok true) ∧
    (∀ (c0 c2 : Changeset R) f w opts, putChangeCond c0 f w = .ok false →
      PutChange c0 f w opts = .ok c2 → c2.Changes = c0.Changes) ∧
    (∀ c ∈ calls, putChangeCond ch c.field c.value = .ok true →
      ∃ w, ch1.Changes.get c.field = some w) ∧
    (∀ pre c post, calls = pre ++ c :: post →
      putChangeCond ch c.field c.value = .ok true →
      (∀ d ∈ post, d.field = c.field → putChangeCond ch d.field d.value ≠ .ok true) →
      ch1.Changes.get c.field = some c.value) ∧
    (∀ (c0 c2 : Changeset R) f w opts k, PutChange c0 f w opts = .ok c2 →
      (c2.Changes.get k = c0.Changes.get k ∨
        (k = f ∧ putChangeCond c0 f w = .ok true ∧ c2.Changes.get k = some w)) ∧
      (∀ x, c0.Changes.get k = some x → ∃ y, c2.Changes.get k = some y)) := by
  refine ⟨?_, ?_, ?_, ?_, ?_⟩
  · intro f w hf
    rcases (runPutChanges_origin calls ch ch1 hrun).2 f w hf with h0 | h
    · rw [hempty] at h0
      simp [GoMap.get, GoMap.empty] at h0
    · exact h
  · intro c0 c2 f w opts hc hp
    rw [PutChange_of_cond_false c0 f w opts hc] at hp
    simp only [Except.ok.injEq] at hp
    subst hp
    rfl
  · intro c hmem hc
    obtain ⟨pre, post, hsplit⟩ := List.append_of_mem hmem
    rw [hsplit] at hrun
    obtain ⟨chm, _, hstored, hrest⟩ := runPutChanges_split ch ch1 pre post c hrun hc
    exact runPutChanges_keeps_entry c.field post chm ch1 c.value hrest hstored
  · intro pre c post hsplit hc hlast
    rw [hsplit] at hrun
    obtain ⟨chm, htm, hstored, hrest⟩ := runPutChanges_split ch ch1 pre post c hrun hc
    have hkeep := runPutChanges_keeps c.field post chm ch1 hrest (by
      intro d hd hdf
      rw [putChangeCond_congr ch chm d.field d.value htm]
      exact hlast d hd hdf)
    exact hkeep.trans hstored
  · intro c0 c2 f w opts k hp
    exact ⟨PutChange_entry c0 c2 f w opts hp k,
      fun x hx => PutChange_keeps_entry c0 c2 f w opts hp k x hx⟩

/-- An instance of C3 as amended: the two sample calls on the sample
changeset. -/
theorem runPutChanges_stores_only_valid_witness :
    (∀ f w, sampleAfterCalls.Changes.get f = some w →
      ∃ c ∈ sampleCalls, c.field = f ∧ c.value = w ∧
        putChangeCond sampleChangeset f w = .ok true) ∧
    (∀ (c0 c2 : Changeset sampleReflect) f w opts, putChangeCond c0 f w = .ok false →
      PutChange c0 f w opts = .ok c2 → c2.Changes = c0.Changes) ∧
    (∀ c ∈ sampleCalls, putChangeCond sampleChangeset c.field c.value = .ok true →
      ∃ w, sampleAfterCalls.Changes.get c.field = some w) ∧
    (∀ pre c post, sampleCalls = pre ++ c :: post →
      putChangeCond sampleChangeset c.field c.value = .ok true →
      (∀ d ∈ post, d.field = c.field →
        putChangeCond sampleChangeset d.field d.value ≠ .ok true) →
      sampleAfterCalls.Changes.get c.field = some c.value) ∧
    (∀ (c0 c2 : Changeset sampleReflect) f w opts k, PutChange c0 f w opts = .ok c2 →
      (c2.Changes.get k = c0.Changes.get k ∨
        (k = f ∧ putChangeCond c0 f w = .ok true ∧ c2.Changes.get k = some w)) ∧
      (∀ x, c0.Changes.get k = some x → ∃ y, c2.Changes.get k = some y)) :=
  runPutChanges_stores_only_valid sampleChangeset sampleAfterCalls sampleCalls rfl
    runPutChanges_sampleCalls

/-- C4, on the code: `Error()` returns the first error of a non-empty list and
nil for the nil list, and panics with an index out of range on a list that is
empty but not nil. -/
theorem Error_of_empty_errors {R : Reflect} (ch : Changeset R) :
    (∀ e l, ({ ch with errors := some (e :: l) } : Changeset R).Error = .ok e) ∧
    ({ ch with errors := none } : Changeset R).Error = .ok none ∧
    ({ ch with errors := some [] } : Changeset R).Error = .error Fault.indexOutOfRange :=
  ⟨fun _ _ => rfl, rfl, rfl⟩

/-- C8: `Errors()` after a call of `PutChange` starts with `Errors()` before
it, with at most one error added at the end; and on two changesets that
differ only in their error lists, the call with the same field and value
panics on both or returns on both, with the same changes map and the same
error (or none) added. -/
theorem PutChange_errors_accumulate {R : Reflect} (ch : Changeset R) (f : String)
    (v : Option R.Val) (opts : List OptionFn) (e1 e2 : GoSlice (Option FieldError)) :
    (match PutChange ch f v opts with
      | .ok ch1 => ∃ added, ch1.Errors.toList = ch.Errors.toList ++ added ∧ added.length ≤ 1
      | .error _ => True) ∧
    (match PutChange { ch with errors := e1 } f v opts,
        PutChange { ch with errors := e2 } f v opts with
      | .ok c1, .ok c2 =>
        c1.Changes = c2.Changes ∧
          ∃ added, c1.Errors.toList = e1.toList ++ added ∧
            c2.Errors.toList = e2.toList ++ added ∧ added.length ≤ 1
      | .error x, .error y => x = y
      | _, _ => False) := by
  cases hc : putChangeCond ch f v with
  | error e =>
    have h1 := putChangeCond_errors_irrelevant ch e1 f v
    have h2 := putChangeCond_errors_irrelevant ch e2 f v
    rw [hc] at h1 h2
    rw [PutChange_of_cond_error _ f v opts e hc, PutChange_of_cond_error _ f v opts e h1,
      PutChange_of_cond_error _ f v opts e h2]
    exact ⟨trivial, rfl⟩
  | ok b =>
    have h1 := putChangeCond_errors_irrelevant ch e1 f v
    have h2 := putChangeCond_errors_irrelevant ch e2 f v
    rw [hc] at h1 h2
    cases b with
    | false =>
      rw [PutChange_of_cond_false _ f v opts hc, PutChange_of_cond_false _ f v opts h1,
        PutChange_of_cond_false _ f v opts h2]
      exact ⟨⟨[_], rfl, le_refl _⟩, rfl, [_], rfl, rfl, le_refl _⟩
    | true =>
      rw [PutChange_of_cond_true _ f v opts hc, PutChange_of_cond_true _ f v opts h1,
        PutChange_of_cond_true _ f v opts h2]
      cases hm : ch.changes with
      | none => simp [GoMap.set]
      | some g =>
        simp only [GoMap.set]
        exact ⟨⟨[], by simp [Changeset.Errors], Nat.zero_le _⟩, rfl, [],
          by simp [Changeset.Errors], by simp [Changeset.Errors], Nat.zero_le _⟩

/-- C10, on the code: for a field with an entry in `types`, `PutChange` with
the nil value panics with a nil dereference, whatever the changeset and the
options; it neither stores the value nor appends an error. -/
theorem PutChange_nil_value_faults {R : Reflect} (ch : Changeset R) (f : String)
    (typ : Option R.RType) (opts : List OptionFn) (h : ch.types.get f = some typ) :
    PutChange ch f none opts = .error Fault.nilDereference := by
  apply PutChange_of_cond_error
  simp [putChangeCond, h, Reflect.TypeOf, Reflect.ConvertibleTo]

/-- An instance of C10 on the code: nil for the field `age` of the sample
changeset. -/
theorem PutChange_nil_value_faults_witness :
    PutChange sampleChangeset "age" none [] = .error Fault.nilDereference :=
  PutChange_nil_value_faults sampleChangeset "age" (some Kind.int) []
    (by simp [sampleChangeset, GoMap.get])

end changeset

/-! ## The postgresql adapter -/

namespace postgresql

open Go

theorem Adapter.Query_adapter {T : Types} {α : Type} (B : Backend T)
    (scan : Log T → α → T.Rows → (Int × Option GoError) × α)
    (out : α) (statement : String) (args : List T.Arg) (st st1 : State T)
    (r : (Int × Option GoError) × α)
    (h : Adapter.Query B scan out statement args st = .ok (r, st1)) :
    st1.adapter = st.adapter := by
  unfold Adapter.Query Adapter.queryRows at h
  cases htx : st.adapter.tx with
  | some tx =>
    simp only [htx] at h
    cases hq : B.txQuery st.log tx statement args <;>
      simp only [hq, Except.ok.injEq, Prod.mk.injEq] at h <;>
      (obtain ⟨_, h⟩ := h; subst h; rfl)
  | none =>
    simp only [htx] at h
    cases hdb : st.adapter.db with
    | none => simp [hdb] at h
    | some db =>
      simp only [hdb] at h
      cases hq : B.dbQuery st.log db statement args <;>
        simp only [hq, Except.ok.injEq, Prod.mk.injEq] at h <;>
        (obtain ⟨_, h⟩ := h; subst h; rfl)

theorem Adapter.Exec_adapter {T : Types} (B : Backend T) (statement : String)
    (args : List T.Arg) (st st1 : State T) (r : Int × Int × Option GoError)
    (h : Adapter.Exec B statement args st = .ok (r, st1)) :
    st1.adapter = st.adapter := by
  unfold Adapter.Exec at h
  cases htx : st.adapter.tx with
  | some tx =>
    simp only [htx] at h
    cases hq : B.txExec st.log tx statement args <;>
      simp only [hq, Except.ok.injEq, Prod.mk.injEq] at h <;>
      (obtain ⟨_, h⟩ := h; subst h; rfl)
  | none =>
    simp only [htx] at h
    cases hdb : st.adapter.db with
    | none => simp [hdb] at h
    | some db =>
      simp only [hdb] at h
      cases hq : B.dbExec st.log db statement args <;>
        simp only [hq, Except.ok.injEq, Prod.mk.injEq] at h <;>
        (obtain ⟨_, h⟩ := h; subst h; rfl)

/-- C5: on an adapter whose transaction handle is nil, `Commit` and `Rollback`
return the error `not in transaction` and make no backend call; on an adapter
with a transaction handle they call `Commit` (or `Rollback`) on that handle
once, make no other call, and return its result passed through `Error`. -/
theorem Commit_Rollback_by_handle {T : Types} (B : Backend T) (db : Option DB) (tx : Tx)
    (log : Log T) :
    Adapter.Commit B ⟨⟨db, none⟩, log⟩ =
      (some (GoError.unexpected "not in transaction"), ⟨⟨db, none⟩, log⟩) ∧
    Adapter.Rollback B ⟨⟨db, none⟩, log⟩ =
      (some (GoError.unexpected "not in transaction"), ⟨⟨db, none⟩, log⟩) ∧
    Adapter.Commit B ⟨⟨db, some tx⟩, log⟩ =
      (Adapter.Error ⟨db, some tx⟩ (B.txCommit log tx),
        ⟨⟨db, some tx⟩, log ++ [Call.txCommit tx]⟩) ∧
    Adapter.Rollback B ⟨⟨db, some tx⟩, log⟩ =
      (Adapter.Error ⟨db, some tx⟩ (B.txRollback log tx),
        ⟨⟨db, some tx⟩, log ++ [Call.txRollback tx]⟩) :=
  ⟨rfl, rfl, rfl, rfl⟩

/-- C6, on the code: `Begin` on an adapter that holds a transaction handle and
no connection panics with a nil dereference; it returns neither an error nor
an adapter, and makes no backend call. -/
theorem Begin_transactional_faults {T : Types} (B : Backend T) (tx : Tx) (log : Log T) :
    Adapter.Begin B ⟨⟨none, some tx⟩, log⟩ = .error Fault.nilDereference :=
  rfl

/-- C7, on the code: `Error` returns every input as it came; a driver error
with the code of a uniqueness violation comes back as that driver error, not
as a duplicate-key error. -/
theorem Error_returns_input (adapter : Adapter) (err : Option GoError) (message : String) :
    adapter.Error err = err ∧
    adapter.Error (some (GoError.driver uniqueViolation message)) =
      some (GoError.driver uniqueViolation message) ∧
    ∀ m f, adapter.Error (some (GoError.driver uniqueViolation message)) ≠
      some (GoError.duplicate m f) := by
  refine ⟨?_, rfl, ?_⟩
  · cases err <;> rfl
  · intro m f h
    simp [Adapter.Error] at h

/-- C9, as stated, fails: `Begin` on an adapter with connection 7, whose
`BeginTx` fails, returns the error together with an adapter that owns neither
a connection nor a transaction handle. -/
theorem Begin_failure_owns_neither :
    Adapter.Begin sampleBackend ⟨⟨some ⟨7⟩, none⟩, []⟩ =
      .ok ((⟨none, none⟩, some (GoError.driver "08006" "connection failure")),
        ⟨⟨some ⟨7⟩, none⟩, [Call.dbBeginTx ⟨7⟩]⟩) :=
  rfl

/-- C9, amended: an adapter returned by `Open` has no transaction handle, and
has a connection exactly when `Open` returns no error; `Begin` on an adapter
with a connection returns, and an adapter returned by `Begin` has no
connection, and has a transaction handle exactly when `Begin` returns no
error; so a returned adapter never owns both handles, owns exactly one when
the error is nil and none when it is not. No operation (`All`, `Insert`,
`InsertAll`, `Update`, `Delete`, `Begin`, `Commit`, `Rollback`, `Query`,
`Exec`) changes the handles of the adapter it is called on, and `Error`
returns its argument whatever the adapter. -/
theorem adapter_handles {T : Types} (B : Backend T) (S : Builder T) (st : State T) :
    (∀ dsn log, (Open B dsn log).1.1.tx = none ∧
      ((Open B dsn log).1.1.db.isSome = true ↔ (Open B dsn log).1.2 = none)) ∧
    (∀ db log, ∃ r, Adapter.Begin B ⟨⟨some db, none⟩, log⟩ = .ok r) ∧
    (∀ a err st1, Adapter.Begin B st = .ok ((a, err), st1) →
      a.db = none ∧ (a.tx.isSome = true ↔ err = none) ∧ st1.adapter = st.adapter) ∧
    (∀ query doc r st1, Adapter.All B S query doc st = .ok (r, st1) →
      st1.adapter = st.adapter) ∧
    (∀ query changes r st1, Adapter.Insert B S query changes st = .ok (r, st1) →
      st1.adapter = st.adapter) ∧
    (∀ query fields allchanges r st1,
      Adapter.InsertAll B S query fields allchanges st = .ok (r, st1) →
      st1.adapter = st.adapter) ∧
    (∀ query changes r st1, Adapter.Update B S query changes st = .ok (r, st1) →
      st1.adapter = st.adapter) ∧
    (∀ query r st1, Adapter.Delete B S query st = .ok (r, st1) → st1.adapter = st.adapter) ∧
    (Adapter.Commit B st).2.adapter = st.adapter ∧
    (Adapter.Rollback B st).2.adapter = st.adapter ∧
    (∀ (out : T.Doc) statement args r st1,
      Adapter.Query B B.scanDoc out statement args st = .ok (r, st1) →
      st1.adapter = st.adapter) ∧
    (∀ statement args r st1, Adapter.Exec B statement args st = .ok (r, st1) →
      st1.adapter = st.adapter) ∧
    (∀ err, st.adapter.Error err = err) := by
  refine ⟨?_, ?_, ?_, ?_, ?_, ?_, ?_, ?_, ?_, ?_, ?_, ?_, ?_⟩
  · intro dsn log
    refine ⟨rfl, ?_⟩
    cases h : B.sqlOpen log "postgres" dsn <;> simp [Open, pairOf, h]
  · intro db log
    exact ⟨_, rfl⟩
  · intro a err st1 h
    unfold Adapter.Begin at h
    cases hdb : st.adapter.db with
    | none => simp [hdb] at h
    | some db =>
      simp only [hdb, Except.ok.injEq, Prod.mk.injEq] at h
      obtain ⟨⟨ha, herr⟩, hst⟩ := h
      subst ha herr hst
      cases hb : B.dbBeginTx st.log db <;> simp [pairOf]
  · intro query doc r st1 h
    exact Adapter.Query_adapter B _ _ _ _ st st1 r h
  · intro query changes r st1 h
    unfold Adapter.Insert at h
    cases hq : Adapter.Query B B.scanID 0
        (S.Insert ((NewBuilder "$" true).Returning "id") query.Collection changes).1
        (S.Insert ((NewBuilder "$" true).Returning "id") query.Collection changes).2 st with
    | error f => simp [hq] at h
    | ok p =>
      obtain ⟨q, st2⟩ := p
      simp only [hq, Except.ok.injEq, Prod.mk.injEq] at h
      rw [← h.2]
      exact Adapter.Query_adapter B _ _ _ _ st st2 q hq
  · intro query fields allchanges r st1 h
    unfold Adapter.InsertAll at h
    cases hq : Adapter.Query B B.scanIDs none
        (S.InsertAll ((NewBuilder "$" true).Returning "id") query.Collection fields
          allchanges).1
        (S.InsertAll ((NewBuilder "$" true).Returning "id") query.Collection fields
          allchanges).2 st with
    | error f => simp [hq] at h
    | ok p =>
      obtain ⟨q, st2⟩ := p
      simp only [hq, Except.ok.injEq, Prod.mk.injEq] at h
      rw [← h.2]
      exact Adapter.Query_adapter B _ _ _ _ st st2 q hq
  · intro query changes r st1 h
    unfold Adapter.Update at h
    cases hq : Adapter.Exec B
        (S.Update (NewBuilder "$" true) query.Collection changes query.Condition).1
        (S.Update (NewBuilder "$" true) query.Collection changes query.Condition).2 st with
    | error f => simp [hq] at h
    | ok p =>
      obtain ⟨q, st2⟩ := p
      simp only [hq, Except.ok.injEq, Prod.mk.injEq] at h
      rw [← h.2]
      exact Adapter.Exec_adapter B _ _ st st2 q hq
  · intro query r st1 h
    unfold Adapter.Delete at h
    cases hq : Adapter.Exec B
        (S.Delete (NewBuilder "$" true) query.Collection query.Condition).1
        (S.Delete (NewBuilder "$" true) query.Collection query.Condition).2 st with
    | error f => simp [hq] at h
    | ok p =>
      obtain ⟨q, st2⟩ := p
      simp only [hq, Except.ok.injEq, Prod.mk.injEq] at h
      rw [← h.2]
      exact Adapter.Exec_adapter B _ _ st st2 q hq
  · unfold Adapter.Commit
    cases st.adapter.tx <;> rfl
  · unfold Adapter.Rollback
    cases st.adapter.tx <;> rfl
  · intro out statement args r st1 h
    exact Adapter.Query_adapter B _ _ _ _ st st1 r h
  · intro statement args r st1 h
    exact Adapter.Exec_adapter B _ _ st st1 r h
  · intro err
    cases err <;> rfl

end postgresql
